import Mathlib

/-!
Verification development for the `database-iteration` service
(`src/database-iteration/main.go`): a list endpoint over a system-versioned
table, issuing next-page and sync continuation tokens.  The definitions below
are a shallow embedding of `main.go`; the theorems settle the specification's
claims about it.
-/

namespace DBIter

/-! ### Time model

Go `time.Time` is modelled by its instant: Unix seconds plus the sub-second
nanosecond component.  A well-formed value has `0 ≤ nsec < 10^9` and a Unix
second count representable in Go's `int64`. -/

structure GoTime where
  sec : Int
  nsec : Int
  deriving DecidableEq, Repr

/-- Unix second count of Go's zero `time.Time` (January 1, year 1, UTC). -/
def goTimeZeroSec : Int := -62135596800

/-- Go's zero `time.Time` value. -/
def GoTime.zero : GoTime := ⟨goTimeZeroSec, 0⟩

/-- Go `t.IsZero()`: true exactly at the zero instant (`time.Unix(-62135596800, 0)`
is the same instant, and Go's `IsZero` is also true on it). -/
def GoTime.isZero (t : GoTime) : Bool := t.sec == goTimeZeroSec && t.nsec == 0

/-- Go `time.Unix(s, 0)`. -/
def timeUnix (s : Int) : GoTime := ⟨s, 0⟩

/-- Go `t.Unix()`: the Unix second count (floor, since `0 ≤ nsec`). -/
def GoTime.unix (t : GoTime) : Int := t.sec

/-- Go `a.Before(b)`: strict instant comparison. -/
def GoTime.before (a b : GoTime) : Bool :=
  a.sec < b.sec || (a.sec == b.sec && a.nsec < b.nsec)

/-- Go `t.AddDate(0, 0, 1)`: one calendar day later.  Modelled as +86400
seconds, exact whenever the day has 24 hours; no claim below depends on the
exact value of a `validUntil` field. -/
def GoTime.addDate001 (t : GoTime) : GoTime := ⟨t.sec + 86400, t.nsec⟩

/-- Truncation of an instant to whole seconds (drops the `nsec` component). -/
def GoTime.truncSec (t : GoTime) : GoTime := ⟨t.sec, 0⟩

/-- Well-formedness of a modelled `time.Time`: nanoseconds in range and the
Unix second count representable in `int64`. -/
def GoTime.WF (t : GoTime) : Prop :=
  0 ≤ t.nsec ∧ t.nsec < 1000000000 ∧ -(2 ^ 63) ≤ t.sec ∧ t.sec < 2 ^ 63

instance (t : GoTime) : Decidable t.WF := by unfold GoTime.WF; infer_instance

/-! ### 64-bit integers -/

/-- Predicate for a value representable in Go's `int64`. -/
def inInt64Range (n : Int) : Bool := -(2 ^ 63) ≤ n && n < 2 ^ 63

/-- Reduction of an integer into the signed 64-bit range, as Go's wrapping
`int`/`int64` addition produces. -/
def wrap64 (n : Int) : Int := (n + 2 ^ 63) % 2 ^ 64 - 2 ^ 63

/-! ### Data model (`main.go` lines 260-279, 334-337) -/

structure User where
  id : String
  name : String
  email : String
  createdAt : String
  updatedAt : String
  deriving DecidableEq, Repr

structure NextPageToken where
  timestamp : GoTime
  updatedAfter : GoTime
  offset : Int
  validUntil : GoTime
  deriving DecidableEq, Repr

structure SyncToken where
  timestamp : GoTime
  validUntil : GoTime
  deriving DecidableEq, Repr

structure ListResponse where
  users : List User
  nextPageToken : Option NextPageToken
  syncToken : Option SyncToken
  deriving DecidableEq, Repr

/-! ### Base64 (Go `encoding/base64`, `StdEncoding`)

Bytes are modelled as natural numbers below 256. -/

/-- Alphabet of Go's `base64.StdEncoding`. -/
def b64alphabet : List Char :=
  "ABCDEFGHIJKLMNOPQRSTUVWXYZabcdefghijklmnopqrstuvwxyz0123456789+/".data

/-- Character for a 6-bit value. -/
def b64char (i : Nat) : Char := b64alphabet.getD i 'A'

/-- Index of a character in the alphabet, `none` when it is not in it. -/
def b64indexOf (c : Char) : List Char → Option Nat
  | [] => none
  | a :: rest => if a = c then some 0 else (b64indexOf c rest).map (· + 1)

def b64index (c : Char) : Option Nat := b64indexOf c b64alphabet

/-- Go `base64.StdEncoding.Encode`: three bytes become four characters, with
`=` padding closing a final partial group. -/
def b64encode : List Nat → List Char
  | [] => []
  | [a] => [b64char (a / 4), b64char (a % 4 * 16), '=', '=']
  | [a, b] => [b64char (a / 4), b64char (a % 4 * 16 + b / 16), b64char (b % 16 * 4), '=']
  | a :: b :: c :: rest =>
      b64char (a / 4) :: b64char (a % 4 * 16 + b / 16) ::
        b64char (b % 16 * 4 + c / 64) :: b64char (c % 64) :: b64encode rest

/-- Decoding of newline-free input: strict four-character groups, `=` padding
only at the end (Go's default decoder does not reject non-zero trailing
bits). -/
def b64decodeQ : List Char → Option (List Nat)
  | [] => some []
  | c1 :: c2 :: c3 :: c4 :: rest =>
      match b64index c1, b64index c2 with
      | some i1, some i2 =>
        if c3 = '=' then
          if c4 = '=' && rest == [] then some [i1 * 4 + i2 / 16] else none
        else
          match b64index c3 with
          | some i3 =>
            if c4 = '=' then
              if rest == [] then some [i1 * 4 + i2 / 16, i2 % 16 * 16 + i3 / 4] else none
            else
              match b64index c4, b64decodeQ rest with
              | some i4, some tail =>
                  some ((i1 * 4 + i2 / 16) :: (i2 % 16 * 16 + i3 / 4) :: (i3 % 4 * 64 + i4) :: tail)
              | _, _ => none
          | none => none
      | _, _ => none
  | _ => none

/-- Go `base64.StdEncoding.Decode`: carriage returns and newlines are skipped,
everything else is decoded strictly. -/
def b64decode (s : List Char) : Option (List Nat) :=
  b64decodeQ (s.filter (fun c => !(c == '\n' || c == '\r')))

/-! ### Decimal rendering (Go `encoding/json` integer output) -/

def digitChar (d : Nat) : Char := Char.ofNat (48 + d)

/-- Decimal digits of a natural number; the fuel argument only drives the
recursion and `natToChars` supplies enough of it. -/
def natToCharsAux : Nat → Nat → List Char
  | 0, _ => []
  | fuel + 1, n => if n < 10 then [digitChar n] else natToCharsAux fuel (n / 10) ++ [digitChar (n % 10)]

def natToChars (n : Nat) : List Char := natToCharsAux (n + 1) n

/-- Decimal rendering of an `int64`, as `json.Marshal` emits it. -/
def renderInt (n : Int) : List Char :=
  if n < 0 then '-' :: natToChars n.natAbs else natToChars n.toNat

/-! ### JSON values and a model of Go `encoding/json` parsing

Values are objects, arrays, strings (with the single-character escapes and
the `\uXXXX` escape including UTF-16 surrogate pairing), numbers (with the
integer part and an integrality flag; a number with a fraction or exponent
cannot be stored in an `int64` field), booleans and null. -/

inductive Json where
  | null
  | boolean (b : Bool)
  | num (intPart : Int) (integral : Bool)
  | str (s : List Char)
  | arr (elems : List Json)
  | obj (members : List (List Char × Json))

def lbraceC : Char := Char.ofNat 123
def rbraceC : Char := Char.ofNat 125

def wsChars : List Char := [' ', '\t', '\n', '\x0d']

def isWs (c : Char) : Bool := wsChars.contains c

def skipWs (s : List Char) : List Char := s.dropWhile isWs

def digitVal (c : Char) : Nat := c.toNat - 48

def parseDigitsAux (acc : Nat) : List Char → Nat × List Char
  | [] => (acc, [])
  | c :: cs => if c.isDigit then parseDigitsAux (acc * 10 + digitVal c) cs else (acc, c :: cs)

def dropDigits (s : List Char) : List Char := s.dropWhile Char.isDigit

/-- Integer part of a JSON number (after the optional minus sign). -/
def parseIntPart : List Char → Option (Nat × List Char)
  | [] => none
  | c :: cs =>
      if c = '0' then some (0, cs)
      else if c.isDigit then some (parseDigitsAux (digitVal c) cs)
      else none

/-- Digit characters, from the code points 48 through 57. -/
def digitsList : List Char := (List.range 10).map (fun d => Char.ofNat (48 + d))

/-- Input that cannot continue a JSON number: empty, or starting with a
character that is no digit, no decimal point and no exponent marker. -/
def numBoundary (rest : List Char) : Prop :=
  ∀ c cs, rest = c :: cs → c.isDigit = false ∧ c ≠ '.' ∧ c ≠ 'e' ∧ c ≠ 'E'

/-- Optional fraction part; reports whether one was present. -/
def parseFracOpt : List Char → Option (Bool × List Char)
  | [] => some (false, [])
  | c :: rest =>
      if c = '.' then
        match rest with
        | d :: _ => if d.isDigit then some (true, dropDigits rest) else none
        | [] => none
      else some (false, c :: rest)

/-- Optional exponent part; reports whether one was present. -/
def parseExpOpt : List Char → Option (Bool × List Char)
  | [] => some (false, [])
  | c :: rest =>
      if c = 'e' || c = 'E' then
        let rest2 := match rest with
          | '+' :: r => r
          | '-' :: r => r
          | r => r
        match rest2 with
        | d :: _ => if d.isDigit then some (true, dropDigits rest2) else none
        | [] => none
      else some (false, c :: rest)

def parseNumber (s : List Char) : Option (Json × List Char) :=
  let p : Bool × List Char := match s with
    | [] => (false, [])
    | c :: r => if c = '-' then (true, r) else (false, c :: r)
  match parseIntPart p.2 with
  | none => none
  | some (n, s2) =>
    match parseFracOpt s2 with
    | none => none
    | some (sawFrac, s3) =>
      match parseExpOpt s3 with
      | none => none
      | some (sawExp, s4) =>
          some (.num (if p.1 then -(n : Int) else (n : Int)) (!sawFrac && !sawExp), s4)

/-- Escape table of the modelled string grammar, as marker-result pairs. -/
def escPairs : List (Char × Char) :=
  [('"', '"'), ('\\', '\\'), ('/', '/'), ('n', '\n'), ('t', '\t'), ('r', '\x0d'),
    ('b', '\x08'), ('f', '\x0c')]

def escChar (e : Char) : Option Char :=
  (escPairs.find? (fun p => p.1 == e)).map (fun p => p.2)

/-- Hexadecimal digit value, accepting both letter cases. -/
def hexDigitVal (c : Char) : Option Nat :=
  let v := c.toNat
  if 48 ≤ v ∧ v ≤ 57 then some (v - 48)
  else if 97 ≤ v ∧ v ≤ 102 then some (v - 87)
  else if 65 ≤ v ∧ v ≤ 70 then some (v - 55)
  else none

/-- Code unit denoted by a four-digit hexadecimal escape. -/
def hex4 (a b c d : Char) : Option Nat :=
  match hexDigitVal a, hexDigitVal b, hexDigitVal c, hexDigitVal d with
  | some x1, some x2, some x3, some x4 => some (x1 * 4096 + x2 * 256 + x3 * 16 + x4)
  | _, _, _, _ => none

/-- Unicode replacement character, which Go substitutes for an unpaired
surrogate escape instead of failing. -/
def replChar : Char := Char.ofNat 65533

def highSurrogate (n : Nat) : Bool := 55296 ≤ n && n < 56320

def lowSurrogate (n : Nat) : Bool := 56320 ≤ n && n < 57344

/-- Scan of a JSON string body after the opening quote, following Go's
scanner: the eight single-character escapes, the `\uXXXX` escape (any
four-digit code unit, surrogates included), an error on a malformed escape or
an unescaped control character.  Each escape or plain character yields one
code unit; pairing of surrogates happens in `combineUnits`. -/
def parseStringUnits : List Char → Option (List Nat × List Char)
  | [] => none
  | c :: cs =>
      if c = '"' then some ([], cs)
      else if c = '\\' then
        match cs with
        | [] => none
        | e :: cs2 =>
          if e = 'u' then
            match cs2 with
            | h1 :: h2 :: h3 :: h4 :: cs3 =>
              match hex4 h1 h2 h3 h4 with
              | none => none
              | some n => (parseStringUnits cs3).map (fun p => (n :: p.1, p.2))
            | _ => none
          else
            match escChar e with
            | some ec => (parseStringUnits cs2).map (fun p => (ec.toNat :: p.1, p.2))
            | none => none
      else if c.toNat < 32 then none
      else (parseStringUnits cs).map (fun p => (c.toNat :: p.1, p.2))

/-- UTF-16 surrogate combination over the scanned code units, as Go's
`unquoteBytes` performs it: an adjacent high-low pair becomes one code point,
an unpaired surrogate becomes U+FFFD.  Surrogate-range units can only come
from `\uXXXX` escapes, and each unit came from one escape or character, so
adjacency of units is adjacency of escapes, as in Go. -/
def combineUnits : List Nat → List Char
  | [] => []
  | [n] =>
      if highSurrogate n || lowSurrogate n then [replChar]
      else [Char.ofNat n]
  | n :: m :: rest =>
      if highSurrogate n then
        if lowSurrogate m then
          Char.ofNat (65536 + (n - 55296) * 1024 + (m - 56320)) :: combineUnits rest
        else replChar :: combineUnits (m :: rest)
      else if lowSurrogate n then replChar :: combineUnits (m :: rest)
      else Char.ofNat n :: combineUnits (m :: rest)

/-- Body of a JSON string after the opening quote: scan, then combine
surrogates. -/
def parseStringBody (s : List Char) : Option (List Char × List Char) :=
  (parseStringUnits s).map (fun p => (combineUnits p.1, p.2))

/-- Recursive-descent JSON parser.  `mode = 0` parses a value, `mode = 1` a
non-empty object member list (yielding the object), `mode = 2` a non-empty
array element list (yielding the array); the fuel only drives recursion and
`jsonParse` supplies enough of it. -/
def parseCore : Nat → Nat → List Char → Option (Json × List Char)
  | 0, _, _ => none
  | fuel + 1, mode, s =>
    if mode = 1 then
      match skipWs s with
      | [] => none
      | c :: cs =>
        if c = '"' then
          match parseStringBody cs with
          | some (key, rest) =>
            match skipWs rest with
            | [] => none
            | c2 :: rest2 =>
              if c2 = ':' then
                match parseCore fuel 0 rest2 with
                | some (v, rest3) =>
                  match skipWs rest3 with
                  | [] => none
                  | c3 :: rest4 =>
                    if c3 = ',' then
                      match parseCore fuel 1 rest4 with
                      | some (Json.obj ms, rest5) => some (Json.obj ((key, v) :: ms), rest5)
                      | _ => none
                    else if c3 = rbraceC then some (Json.obj [(key, v)], rest4)
                    else none
                | none => none
              else none
          | none => none
        else none
    else if mode = 2 then
      match parseCore fuel 0 s with
      | some (v, rest) =>
        match skipWs rest with
        | [] => none
        | c2 :: rest2 =>
          if c2 = ',' then
            match parseCore fuel 2 rest2 with
            | some (Json.arr es, rest3) => some (Json.arr (v :: es), rest3)
            | _ => none
          else if c2 = ']' then some (Json.arr [v], rest2)
          else none
      | none => none
    else
      match skipWs s with
      | [] => none
      | c :: cs =>
        if c = lbraceC then
          match skipWs cs with
          | c2 :: cs2 => if c2 = rbraceC then some (Json.obj [], cs2) else parseCore fuel 1 (c2 :: cs2)
          | [] => none
        else if c = '[' then
          match skipWs cs with
          | c2 :: cs2 => if c2 = ']' then some (Json.arr [], cs2) else parseCore fuel 2 (c2 :: cs2)
          | [] => none
        else if c = '"' then
          match parseStringBody cs with
          | some (str, rest) => some (Json.str str, rest)
          | none => none
        else if c = 'n' then
          match cs with
          | 'u' :: 'l' :: 'l' :: r => some (Json.null, r)
          | _ => none
        else if c = 't' then
          match cs with
          | 'r' :: 'u' :: 'e' :: r => some (Json.boolean true, r)
          | _ => none
        else if c = 'f' then
          match cs with
          | 'a' :: 'l' :: 's' :: 'e' :: r => some (Json.boolean false, r)
          | _ => none
        else if c = '-' || c.isDigit then parseNumber (c :: cs)
        else none

/-- Go `json.Unmarshal` top level: one JSON value followed only by
whitespace. -/
def jsonParse (s : List Char) : Option Json :=
  match parseCore (s.length + 1) 0 s with
  | some (v, rest) => if skipWs rest = [] then some v else none
  | none => none

/-! ### Token codec (`main.go` lines 281-332 and 339-379) -/

inductive DecodeErr where
  | corruptBase64
  | badJson
  | badField
  deriving DecidableEq, Repr

/-- Last binding of a key in an object, as Go's decoder keeps the last
occurrence of a duplicated key. -/
def jLookup (ms : List (List Char × Json)) (key : List Char) : Option Json :=
  ms.foldl (fun acc m => if m.1 = key then some m.2 else acc) none

/-- Assignment of an object field to a Go `int64`/`int` destination: a missing
or null field leaves the zero value, an integral number in range is stored,
anything else is an unmarshalling error. -/
def getIntField (v : Option Json) : Except DecodeErr (Option Int) :=
  match v with
  | none => .ok none
  | some Json.null => .ok none
  | some (Json.num n integral) =>
      if integral && inInt64Range n then .ok (some n) else .error .badField
  | some _ => .error .badField

def bytesToChars (bs : List Nat) : List Char := bs.map Char.ofNat

def charsToBytes (s : List Char) : List Nat := s.map Char.toNat

/-- Go `(*SyncToken).UnmarshalJSON`: base64-decode the raw token text, then
unmarshal `{"t":…,"v":…}` into int64 fields and convert with `time.Unix`.
A top-level JSON null leaves the intermediate struct zeroed, like Go. -/
def unmarshalSyncToken (data : List Char) : Except DecodeErr SyncToken :=
  match b64decode data with
  | none => .error .corruptBase64
  | some bs =>
    match jsonParse (bytesToChars bs) with
    | none => .error .badJson
    | some Json.null => .ok ⟨timeUnix 0, timeUnix 0⟩
    | some (Json.obj ms) =>
      match getIntField (jLookup ms ['t']), getIntField (jLookup ms ['v']) with
      | .ok t, .ok v => .ok ⟨timeUnix (t.getD 0), timeUnix (v.getD 0)⟩
      | _, _ => .error .badField
    | some _ => .error .badJson

/-- Go `(*NextPageToken).UnmarshalJSON`: like the sync variant with fields
`t`, `o`, an optional `u` (a `*int64`, left nil when absent, so the
`UpdatedAfter` field keeps Go's zero `time.Time`) and `v`. -/
def unmarshalNextPageToken (data : List Char) : Except DecodeErr NextPageToken :=
  match b64decode data with
  | none => .error .corruptBase64
  | some bs =>
    match jsonParse (bytesToChars bs) with
    | none => .error .badJson
    | some Json.null => .ok ⟨timeUnix 0, GoTime.zero, 0, timeUnix 0⟩
    | some (Json.obj ms) =>
      match getIntField (jLookup ms ['t']), getIntField (jLookup ms ['o']),
            getIntField (jLookup ms ['u']), getIntField (jLookup ms ['v']) with
      | .ok t, .ok o, .ok u, .ok v =>
          .ok ⟨timeUnix (t.getD 0),
               match u with
               | none => GoTime.zero
               | some n => timeUnix n,
               o.getD 0, timeUnix (v.getD 0)⟩
      | _, _, _, _ => .error .badField
    | some _ => .error .badJson

def quoteKey (c : Char) : List Char := ['"', c, '"']

/-- JSON payload of `(*SyncToken).MarshalJSON`: a struct with tagged fields in
declaration order `t`, `v`, holding Unix second counts. -/
def syncPayload (t : SyncToken) : List Char :=
  lbraceC :: quoteKey 't' ++ ':' :: renderInt t.timestamp.unix ++
    ',' :: quoteKey 'v' ++ ':' :: renderInt t.validUntil.unix ++ [rbraceC]

/-- JSON payload of `(*NextPageToken).MarshalJSON`: a `map[string]any` whose
keys `json.Marshal` sorts (`o`, `t`, `u`, `v`); `u` is omitted when
`UpdatedAfter` is the zero time. -/
def nextPagePayload (t : NextPageToken) : List Char :=
  lbraceC :: quoteKey 'o' ++ ':' :: renderInt t.offset ++
    ',' :: quoteKey 't' ++ ':' :: renderInt t.timestamp.unix ++
    (if t.updatedAfter.isZero then [] else ',' :: quoteKey 'u' ++ ':' :: renderInt t.updatedAfter.unix) ++
    ',' :: quoteKey 'v' ++ ':' :: renderInt t.validUntil.unix ++ [rbraceC]

/-- Token text of `(*SyncToken).MarshalJSON` (the response serializer wraps it
in double quotes; the token itself is the base64 text between them). -/
def marshalSyncToken (t : SyncToken) : List Char := b64encode (charsToBytes (syncPayload t))

/-- Token text of `(*NextPageToken).MarshalJSON`. -/
def marshalNextPageToken (t : NextPageToken) : List Char :=
  b64encode (charsToBytes (nextPagePayload t))

/-! ### Request handling (`main.go` lines 49-203)

The handler is modelled on a single clock reading `now` (the code samples
`time.Now()` a few times within one request; no claim below depends on the
sub-request clock drift).  The database is the external collaborator: a
function from the built query to the returned rows. -/

structure HandlerError where
  status : Nat
  msg : String
  deriving DecidableEq, Repr

/-- Cursor-derived read parameters (`tableInPointOfTime`, `onlyNewerThan`,
`offset` of `main.go` lines 92-94). -/
structure CursorParams where
  tableInPointOfTime : GoTime
  onlyNewerThan : GoTime
  offset : Int
  deriving DecidableEq, Repr

/-- Parameters with no cursor supplied: snapshot at `now`, zero
`onlyNewerThan`, offset 0. -/
def noCursorParams (now : GoTime) : CursorParams := ⟨now, GoTime.zero, 0⟩

/-- Sync-cursor path (`main.go` lines 106-114): reject when expired, else
start a fresh pass filtered to the cursor's timestamp. -/
def applySyncToken (now : GoTime) (tok : SyncToken) : Except HandlerError CursorParams :=
  if tok.validUntil.before now then .error ⟨400, "sync token expired"⟩
  else .ok ⟨now, tok.timestamp, 0⟩

/-- Next-page-cursor path (`main.go` lines 122-131): reject when expired, else
continue the cursor's pass unchanged. -/
def applyNextPageToken (now : GoTime) (tok : NextPageToken) : Except HandlerError CursorParams :=
  if tok.validUntil.before now then .error ⟨400, "next page token expired"⟩
  else .ok ⟨tok.timestamp, tok.updatedAfter, tok.offset⟩

/-- Cursor parsing of the orchestrator (`main.go` lines 99-132): a non-empty
`sync_token` parameter wins, else a non-empty `next_page_token`, else no
cursor.  Decode failures become client errors. -/
def parseCursor (now : GoTime) (syncParam nextParam : String) :
    Except HandlerError CursorParams :=
  if syncParam ≠ "" then
    match unmarshalSyncToken syncParam.data with
    | .error _ => .error ⟨400, "malformed sync token"⟩
    | .ok tok => applySyncToken now tok
  else if nextParam ≠ "" then
    match unmarshalNextPageToken nextParam.data with
    | .error _ => .error ⟨400, "malformed next page token"⟩
    | .ok tok => applyNextPageToken now tok
  else .ok (noCursorParams now)

/-- Go `strconv.Atoi`: optional sign, then only digits, value in the 64-bit
range; anything else is an error (and the handler keeps its default). -/
def atoi (s : String) : Option Int :=
  let p : Bool × List Char := match s.data with
    | '-' :: r => (true, r)
    | '+' :: r => (false, r)
    | r => (false, r)
  if p.2 = [] then none
  else if p.2.all Char.isDigit then
    let n : Int := p.2.foldl (fun a c => a * 10 + (digitVal c : Int)) 0
    let v : Int := if p.1 then -n else n
    if inInt64Range v then some v else none
  else none

/-- Max-results parsing (`main.go` lines 134-139): default 10, overwritten
only by a successfully parsed parameter. -/
def parseMaxResults (maxParam : String) : Int :=
  if maxParam ≠ "" then (atoi maxParam).getD 10 else 10

/-- Query built from the cursor parameters (`main.go` lines 141-158): a
point-in-time read, filtered on `updated_at` only when `onlyNewerThan` is
non-zero, ordered by name, with limit and offset. -/
structure QuerySpec where
  snapshot : GoTime
  updatedAfter : Option GoTime
  limit : Int
  offset : Int
  deriving DecidableEq, Repr

def buildQuery (p : CursorParams) (maxResults : Int) : QuerySpec :=
  ⟨p.tableInPointOfTime, if p.onlyNewerThan.isZero then none else some p.onlyNewerThan,
    maxResults, p.offset⟩

/-- Continuation decision (`main.go` lines 182-191): an empty or short page
yields a sync token at the snapshot, a full page yields a next-page token
whose offset advances by the page size (Go `int` addition wraps at 64 bits). -/
def decideContinuation (users : List User) (maxResults : Int) (p : CursorParams)
    (now : GoTime) : Option NextPageToken × Option SyncToken :=
  if users.length = 0 ∨ (users.length : Int) < maxResults then
    (none, some ⟨p.tableInPointOfTime, now.addDate001⟩)
  else
    (some ⟨p.tableInPointOfTime, p.onlyNewerThan, wrap64 (p.offset + users.length),
      now.addDate001⟩, none)

/-- The list handler (`main.go` lines 49-203): parse and validate the cursor,
build and run the query, decide the continuation, assemble the response. -/
def listHandler (now : GoTime) (fetch : QuerySpec → List User)
    (syncParam nextParam maxParam : String) : Except HandlerError ListResponse :=
  match parseCursor now syncParam nextParam with
  | .error e => .error e
  | .ok p =>
      let maxResults := parseMaxResults maxParam
      let users := fetch (buildQuery p maxResults)
      let d := decideContinuation users maxResults p now
      .ok ⟨users, d.1, d.2⟩

deriving instance DecidableEq for Except

/-- Sample record used by concrete instantiations. -/
def sampleUser : User := ⟨"", "", "", "", ""⟩

/-- Characters safe to place unescaped in a URL query parameter value.
Modelled from the spec: the RFC 3986 unreserved characters plus `=`, all of
which Go's `net/url` query parsing (through which the handler reads the token
parameters) returns unchanged; notably `+` (decoded to a space) and `%` (an
escape introducer) are excluded. -/
def queryValueSafe (c : Char) : Bool :=
  c.isAlphanum || c = '-' || c = '.' || c = '_' || c = '~' || c = '='

/-- Characters that can occur in a token JSON payload: the structural
characters, the keys, the minus sign and the digits. -/
def payloadChars : List Char :=
  [lbraceC, rbraceC, '"', ',', ':', '-', 'o', 't', 'u', 'v'] ++ digitsList

/-! ### General lemmas -/

theorem wrap64_eq_of_range (n : Int) (h₁ : -(2 ^ 63) ≤ n) (h₂ : n < 2 ^ 63) :
    wrap64 n = n := by
  unfold wrap64
  omega

theorem b64index_b64char : ∀ i : Fin 64, b64index (b64char i.val) = some i.val := by
  decide

theorem b64char_ne_pad : ∀ i : Fin 64, b64char i.val ≠ '=' := by decide

theorem b64char_ne_nl : ∀ i : Fin 64, (b64char i.val == '\n' || b64char i.val == '\r') = false := by
  decide

theorem b64index_b64char_of_lt {i : Nat} (h : i < 64) : b64index (b64char i) = some i :=
  b64index_b64char ⟨i, h⟩

theorem b64char_ne_pad_of_lt {i : Nat} (h : i < 64) : b64char i ≠ '=' :=
  b64char_ne_pad ⟨i, h⟩

/-- Encoder output never contains a carriage return or a newline. -/
theorem b64encode_not_nl (bs : List Nat) (h : ∀ x ∈ bs, x < 256) :
    ∀ ch ∈ b64encode bs, (ch == '\n' || ch == '\r') = false := by
  induction bs using b64encode.induct with
  | case1 => simp [b64encode]
  | case2 a =>
      have ha : a < 256 := h a (by simp)
      intro ch hch
      simp only [b64encode, List.mem_cons, List.mem_singleton, List.not_mem_nil, or_false] at hch
      rcases hch with rfl | rfl | rfl | rfl
      · exact b64char_ne_nl ⟨a / 4, by omega⟩
      · exact b64char_ne_nl ⟨a % 4 * 16, by omega⟩
      · decide
      · decide
  | case3 a b =>
      have ha : a < 256 := h a (by simp)
      have hb : b < 256 := h b (by simp)
      intro ch hch
      simp only [b64encode, List.mem_cons, List.mem_singleton, List.not_mem_nil, or_false] at hch
      rcases hch with rfl | rfl | rfl | rfl
      · exact b64char_ne_nl ⟨a / 4, by omega⟩
      · exact b64char_ne_nl ⟨a % 4 * 16 + b / 16, by omega⟩
      · exact b64char_ne_nl ⟨b % 16 * 4, by omega⟩
      · decide
  | case4 a b c rest ih =>
      have ha : a < 256 := h a (by simp)
      have hb : b < 256 := h b (by simp)
      have hc : c < 256 := h c (by simp)
      have hrest : ∀ x ∈ rest, x < 256 := fun x hx => h x (by simp [hx])
      intro ch hch
      simp only [b64encode, List.mem_cons] at hch
      rcases hch with rfl | rfl | rfl | rfl | hch
      · exact b64char_ne_nl ⟨a / 4, by omega⟩
      · exact b64char_ne_nl ⟨a % 4 * 16 + b / 16, by omega⟩
      · exact b64char_ne_nl ⟨b % 16 * 4 + c / 64, by omega⟩
      · exact b64char_ne_nl ⟨c % 64, by omega⟩
      · exact ih hrest ch hch

/-- The decoder newline filter is transparent on encoder output. -/
theorem b64encode_no_nl (bs : List Nat) (h : ∀ x ∈ bs, x < 256) :
    (b64encode bs).filter (fun c => !(c == '\n' || c == '\r')) = b64encode bs := by
  refine List.filter_eq_self.mpr fun a ha => ?_
  simp [b64encode_not_nl bs h a ha]

/-- Strict decode inverts encode on byte lists. -/
theorem b64decodeQ_b64encode (bs : List Nat) (h : ∀ x ∈ bs, x < 256) :
    b64decodeQ (b64encode bs) = some bs := by
  induction bs using b64encode.induct with
  | case1 => simp [b64encode, b64decodeQ]
  | case2 a =>
      have ha : a < 256 := h a (by simp)
      have h1 := b64index_b64char_of_lt (i := a / 4) (by omega)
      have h2 := b64index_b64char_of_lt (i := a % 4 * 16) (by omega)
      simp only [b64encode, b64decodeQ, h1, h2]
      norm_num
      omega
  | case3 a b =>
      have ha : a < 256 := h a (by simp)
      have hb : b < 256 := h b (by simp)
      have h1 := b64index_b64char_of_lt (i := a / 4) (by omega)
      have h2 := b64index_b64char_of_lt (i := a % 4 * 16 + b / 16) (by omega)
      have h3 := b64index_b64char_of_lt (i := b % 16 * 4) (by omega)
      have hne := b64char_ne_pad_of_lt (i := b % 16 * 4) (by omega)
      simp only [b64encode, b64decodeQ, h1, h2, h3, if_neg hne]
      norm_num
      omega
  | case4 a b c rest ih =>
      have ha : a < 256 := h a (by simp)
      have hb : b < 256 := h b (by simp)
      have hc : c < 256 := h c (by simp)
      have hrest : ∀ x ∈ rest, x < 256 := fun x hx => h x (by simp [hx])
      have h1 := b64index_b64char_of_lt (i := a / 4) (by omega)
      have h2 := b64index_b64char_of_lt (i := a % 4 * 16 + b / 16) (by omega)
      have h3 := b64index_b64char_of_lt (i := b % 16 * 4 + c / 64) (by omega)
      have h4 := b64index_b64char_of_lt (i := c % 64) (by omega)
      have hne3 := b64char_ne_pad_of_lt (i := b % 16 * 4 + c / 64) (by omega)
      have hne4 := b64char_ne_pad_of_lt (i := c % 64) (by omega)
      simp only [b64encode, b64decodeQ, h1, h2, h3, h4, if_neg hne3, if_neg hne4, ih hrest]
      norm_num
      refine ⟨by omega, by omega, by omega⟩

/-- Round trip of the modelled Go base64 codec. -/
theorem b64decode_b64encode (bs : List Nat) (h : ∀ x ∈ bs, x < 256) :
    b64decode (b64encode bs) = some bs := by
  unfold b64decode
  rw [b64encode_no_nl bs h, b64decodeQ_b64encode bs h]


/-! ### Continuation decision lemmas -/

theorem decideContinuation_exactly_one (users : List User) (maxResults : Int)
    (p : CursorParams) (now : GoTime) :
    (decideContinuation users maxResults p now).1.isSome
      = !(decideContinuation users maxResults p now).2.isSome := by
  unfold decideContinuation
  split <;> rfl

/-! ### Claim C1 -/

/-- C1: every successful list response carries exactly one of next_page_token
and sync_token — the next-page token is present precisely when the sync token
is absent — for all request parameters, decoded cursor states and database
results. -/
theorem c1_exactly_one_continuation (now : GoTime) (fetch : QuerySpec → List User)
    (syncParam nextParam maxParam : String) (resp : ListResponse)
    (h : listHandler now fetch syncParam nextParam maxParam = .ok resp) :
    resp.nextPageToken.isSome = !resp.syncToken.isSome := by
  unfold listHandler at h
  cases hpc : parseCursor now syncParam nextParam with
  | error e => rw [hpc] at h; cases h
  | ok p =>
      rw [hpc] at h
      simp only [Except.ok.injEq] at h
      subst h
      exact decideContinuation_exactly_one ..

theorem c1_exactly_one_continuation_witness :
    (ListResponse.mk [] none (some ⟨timeUnix 0, ⟨86400, 0⟩⟩)).nextPageToken.isSome
      = !(ListResponse.mk [] none (some ⟨timeUnix 0, ⟨86400, 0⟩⟩)).syncToken.isSome :=
  c1_exactly_one_continuation (timeUnix 0) (fun _ => []) "" "" "" _ (by decide)

/-! ### Claim C2 -/

/-- C2 (counterexample): with `max_results = 0` and the (then necessarily)
empty result set, the record count equals `max_results`, yet the decision
emits a sync continuation and no next-page continuation — refuting the claim
that a next-page continuation is emitted whenever the count equals
`max_results`, including `max_results = 0`. -/
theorem c2_counterexample :
    (([] : List User).length : Int) = 0 ∧
    (decideContinuation [] 0 ⟨timeUnix 5, GoTime.zero, 0⟩ (timeUnix 9)).1 = none ∧
    (decideContinuation [] 0 ⟨timeUnix 5, GoTime.zero, 0⟩ (timeUnix 9)).2
      = some ⟨timeUnix 5, ⟨86409, 0⟩⟩ := by
  refine ⟨by decide, by decide, by decide⟩

/-- C2 (amended): provided the page size cannot exceed `max_results` (the
LIMIT clause guarantees this), the decision emits a next-page continuation
exactly when the page is non-empty and its record count equals `max_results`;
in every other case — strictly fewer records, including every empty page and
in particular the empty page under `max_results = 0` — it emits a sync
continuation whose timestamp equals the pass's snapshot time. -/
theorem c2_decision_amended (users : List User) (maxResults : Int)
    (p : CursorParams) (now : GoTime) (h : (users.length : Int) ≤ maxResults) :
    decideContinuation users maxResults p now =
      (if users ≠ [] ∧ (users.length : Int) = maxResults then
        some ⟨p.tableInPointOfTime, p.onlyNewerThan,
          wrap64 (p.offset + users.length), now.addDate001⟩
      else none,
      if users ≠ [] ∧ (users.length : Int) = maxResults then none
      else some ⟨p.tableInPointOfTime, now.addDate001⟩) := by
  unfold decideContinuation
  by_cases hc : users.length = 0 ∨ (users.length : Int) < maxResults
  · have hnot : ¬(users ≠ [] ∧ (users.length : Int) = maxResults) := by
      rcases hc with h0 | hlt
      · exact fun hx => hx.1 (List.length_eq_zero.mp h0)
      · exact fun hx => by omega
    simp only [if_pos hc, if_neg hnot]
  · have hyes : users ≠ [] ∧ (users.length : Int) = maxResults := by
      push_neg at hc
      exact ⟨fun he => hc.1 (by rw [he]; rfl), by omega⟩
    simp only [if_neg hc, if_pos hyes]

theorem c2_decision_amended_witness :
    decideContinuation [sampleUser] 1 ⟨timeUnix 5, GoTime.zero, 0⟩ (timeUnix 9) =
      (if [sampleUser] ≠ [] ∧ (([sampleUser] : List User).length : Int) = 1 then
        some ⟨timeUnix 5, GoTime.zero, wrap64 (0 + ([sampleUser] : List User).length),
          (timeUnix 9).addDate001⟩
      else none,
      if [sampleUser] ≠ [] ∧ (([sampleUser] : List User).length : Int) = 1 then none
      else some ⟨timeUnix 5, (timeUnix 9).addDate001⟩) :=
  c2_decision_amended [sampleUser] 1 ⟨timeUnix 5, GoTime.zero, 0⟩ (timeUnix 9) (by decide)

/-! ### Claim C5 -/

/-- C5: the planner maps the three cursor cases to exactly the stated
parameters — no cursor: snapshot `now`, zero (absent) filter, offset 0; a
non-expired sync cursor: fresh snapshot `now`, filter equal to the cursor's
timestamp, offset 0; a non-expired next-page cursor: snapshot, filter and
offset carried over unchanged from the cursor. -/
theorem c5_planner_cases :
    (∀ now : GoTime, noCursorParams now = ⟨now, GoTime.zero, 0⟩) ∧
    (∀ (now : GoTime) (tok : SyncToken), tok.validUntil.before now = false →
        applySyncToken now tok = .ok ⟨now, tok.timestamp, 0⟩) ∧
    (∀ (now : GoTime) (tok : NextPageToken), tok.validUntil.before now = false →
        applyNextPageToken now tok = .ok ⟨tok.timestamp, tok.updatedAfter, tok.offset⟩) := by
  refine ⟨fun _ => rfl, fun now tok h => ?_, fun now tok h => ?_⟩
  · unfold applySyncToken
    simp [h]
  · unfold applyNextPageToken
    simp [h]

theorem c5_planner_cases_witness :
    applySyncToken (timeUnix 10) ⟨timeUnix 3, timeUnix 999⟩
      = .ok ⟨timeUnix 10, timeUnix 3, 0⟩ :=
  c5_planner_cases.2.1 (timeUnix 10) ⟨timeUnix 3, timeUnix 999⟩ (by decide)

/-! ### Claim C6 -/

/-- C6 (amended): when a request continuing from a decoded next-page cursor
issues a new next-page token, the new offset is the previous offset plus the
page's record count reduced into the signed 64-bit range (Go's `int` addition
wraps); whenever that sum stays below 2^63 — as it does along any chain whose
offsets remain in range — it equals the plain sum and the offset does not
decrease.  The snapshot timestamp is carried over unchanged. -/
theorem c6_offset_advance (now : GoTime) (tok : NextPageToken) (p : CursorParams)
    (users : List User) (maxResults : Int) (t' : NextPageToken)
    (hp : applyNextPageToken now tok = .ok p)
    (hd : (decideContinuation users maxResults p now).1 = some t') :
    t'.timestamp = tok.timestamp ∧
    t'.offset = wrap64 (tok.offset + users.length) ∧
    (-(2 ^ 63) ≤ tok.offset → tok.offset + users.length < 2 ^ 63 →
      t'.offset = tok.offset + users.length ∧ tok.offset ≤ t'.offset) := by
  unfold applyNextPageToken at hp
  split at hp
  · cases hp
  · simp only [Except.ok.injEq] at hp
    subst hp
    unfold decideContinuation at hd
    split at hd
    · cases hd
    · simp only [Option.some.injEq] at hd
      subst hd
      refine ⟨rfl, rfl, fun h1 h2 => ?_⟩
      dsimp only
      have hlo : -(2 ^ 63) ≤ tok.offset + (users.length : Int) := by
        have : (0 : Int) ≤ (users.length : Int) := Int.natCast_nonneg _
        omega
      have hw := wrap64_eq_of_range (tok.offset + users.length) hlo h2
      refine ⟨hw, ?_⟩
      rw [hw]
      have : (0 : Int) ≤ (users.length : Int) := Int.natCast_nonneg _
      omega

theorem c6_offset_advance_witness :
    (⟨timeUnix 0, GoTime.zero, wrap64 (5 + (1 : Nat)), ⟨86400, 0⟩⟩ : NextPageToken).timestamp
        = (⟨timeUnix 0, GoTime.zero, 5, timeUnix 86400⟩ : NextPageToken).timestamp ∧
    (⟨timeUnix 0, GoTime.zero, wrap64 (5 + (1 : Nat)), ⟨86400, 0⟩⟩ : NextPageToken).offset
        = wrap64 ((⟨timeUnix 0, GoTime.zero, 5, timeUnix 86400⟩ : NextPageToken).offset
            + ([sampleUser] : List User).length) ∧
    (-(2 ^ 63) ≤ (⟨timeUnix 0, GoTime.zero, 5, timeUnix 86400⟩ : NextPageToken).offset →
      (⟨timeUnix 0, GoTime.zero, 5, timeUnix 86400⟩ : NextPageToken).offset
          + ([sampleUser] : List User).length < 2 ^ 63 →
      (⟨timeUnix 0, GoTime.zero, wrap64 (5 + (1 : Nat)), ⟨86400, 0⟩⟩ : NextPageToken).offset
          = (⟨timeUnix 0, GoTime.zero, 5, timeUnix 86400⟩ : NextPageToken).offset
            + ([sampleUser] : List User).length ∧
      (⟨timeUnix 0, GoTime.zero, 5, timeUnix 86400⟩ : NextPageToken).offset
          ≤ (⟨timeUnix 0, GoTime.zero, wrap64 (5 + (1 : Nat)), ⟨86400, 0⟩⟩ : NextPageToken).offset) :=
  c6_offset_advance (timeUnix 0) ⟨timeUnix 0, GoTime.zero, 5, timeUnix 86400⟩
    ⟨timeUnix 0, GoTime.zero, 5⟩ [sampleUser] 1 _ (by decide) (by decide)

/-- C6 (counterexample): a decoded next-page cursor with offset 2^63 - 1 and a
full one-record page makes the handler issue a next-page token whose offset is
-2^63: not the previous offset plus the record count, and strictly smaller
than the previous offset. -/
theorem c6_counterexample :
    (listHandler (timeUnix 0) (fun _ => [sampleUser]) ""
        (String.mk (marshalNextPageToken
          ⟨timeUnix 0, GoTime.zero, 9223372036854775807, timeUnix 86400⟩)) "1").map
        (fun r => r.nextPageToken)
      = .ok (some ⟨timeUnix 0, GoTime.zero, -9223372036854775808, ⟨86400, 0⟩⟩) ∧
    (-9223372036854775808 : Int) ≠ 9223372036854775807 + 1 ∧
    (-9223372036854775808 : Int) < 9223372036854775807 := by
  refine ⟨by decide, by decide, by decide⟩

/-! ### Claim C7 -/

/-- C7: a decoded token of either variant whose valid_until lies strictly in
the past is rejected with a client error before the cursor is used, whatever
its other fields; no records are returned. -/
theorem c7_expired_rejected :
    (∀ (now : GoTime) (fetch : QuerySpec → List User)
        (syncParam nextParam maxParam : String) (tok : SyncToken),
        syncParam ≠ "" →
        unmarshalSyncToken syncParam.data = .ok tok →
        tok.validUntil.before now = true →
        listHandler now fetch syncParam nextParam maxParam
          = .error ⟨400, "sync token expired"⟩) ∧
    (∀ (now : GoTime) (fetch : QuerySpec → List User) (nextParam maxParam : String)
        (tok : NextPageToken),
        nextParam ≠ "" →
        unmarshalNextPageToken nextParam.data = .ok tok →
        tok.validUntil.before now = true →
        listHandler now fetch "" nextParam maxParam
          = .error ⟨400, "next page token expired"⟩) := by
  constructor
  · intro now fetch sp np mp tok hne hdec hexp
    unfold listHandler parseCursor
    rw [if_pos hne, hdec]
    simp [applySyncToken, hexp]
  · intro now fetch np mp tok hne hdec hexp
    unfold listHandler parseCursor
    rw [if_neg (by simp), if_pos hne, hdec]
    simp [applyNextPageToken, hexp]

theorem c7_expired_rejected_witness :
    listHandler (timeUnix 100) (fun _ => [])
        (String.mk (marshalSyncToken ⟨timeUnix 3, timeUnix 5⟩)) "" ""
      = .error ⟨400, "sync token expired"⟩ :=
  c7_expired_rejected.1 (timeUnix 100) (fun _ => [])
    (String.mk (marshalSyncToken ⟨timeUnix 3, timeUnix 5⟩)) "" "" ⟨timeUnix 3, timeUnix 5⟩
    (by decide) (by decide) (by decide)

/-! ### Claim C9 -/

/-- C9: the query is built without a last-modified filter exactly when the
effective `onlyNewerThan` value is the zero time — whether because no cursor
was supplied, because a next-page cursor carried a zero updated_after, or
because a sync cursor's timestamp was the zero time; a zero timestamp is
indistinguishable from an absent filter at the query layer. -/
theorem c9_zero_filter :
    (∀ (p : CursorParams) (m : Int),
        (buildQuery p m).updatedAfter = none ↔ p.onlyNewerThan.isZero = true) ∧
    (∀ (now : GoTime) (m : Int), (buildQuery (noCursorParams now) m).updatedAfter = none) ∧
    (∀ (now : GoTime) (m : Int) (tok : SyncToken) (p : CursorParams),
        applySyncToken now tok = .ok p → tok.timestamp.isZero = true →
        (buildQuery p m).updatedAfter = none) ∧
    (∀ (now : GoTime) (m : Int) (tok : NextPageToken) (p : CursorParams),
        applyNextPageToken now tok = .ok p → tok.updatedAfter.isZero = true →
        (buildQuery p m).updatedAfter = none) := by
  have hbq : ∀ (p : CursorParams) (m : Int),
      (buildQuery p m).updatedAfter = none ↔ p.onlyNewerThan.isZero = true := by
    intro p m
    unfold buildQuery
    by_cases hz : p.onlyNewerThan.isZero = true
    · simp [hz]
    · simp [hz]
  refine ⟨hbq, fun now m => ?_, fun now m tok p hp hz => ?_, fun now m tok p hp hz => ?_⟩
  · exact (hbq _ m).mpr (by rfl)
  · unfold applySyncToken at hp
    split at hp
    · cases hp
    · simp only [Except.ok.injEq] at hp
      subst hp
      exact (hbq _ m).mpr hz
  · unfold applyNextPageToken at hp
    split at hp
    · cases hp
    · simp only [Except.ok.injEq] at hp
      subst hp
      exact (hbq _ m).mpr hz

theorem c9_zero_filter_witness :
    (buildQuery ⟨timeUnix 12, timeUnix 7, 0⟩ 10).updatedAfter = none
      ↔ (timeUnix 7).isZero = true :=
  c9_zero_filter.1 ⟨timeUnix 12, timeUnix 7, 0⟩ 10

/-! ### Decimal and JSON parsing lemmas -/

theorem digitChar_mem {n : Nat} (h : n < 10) : digitChar n ∈ digitsList := by
  interval_cases n <;> decide

theorem digitsList_isDigit : ∀ c ∈ digitsList, c.isDigit = true := by decide

theorem digitVal_digitChar {n : Nat} (h : n < 10) : digitVal (digitChar n) = n := by
  interval_cases n <;> decide

theorem digitChar_ne_zero {n : Nat} (h : n < 10) (h0 : 0 < n) : digitChar n ≠ '0' := by
  interval_cases n <;> decide

theorem natToCharsAux_mem : ∀ (fuel n : Nat), n < fuel →
    ∀ c ∈ natToCharsAux fuel n, c ∈ digitsList := by
  intro fuel
  induction fuel with
  | zero => intro n h; omega
  | succ f ih =>
      intro n h c hc
      unfold natToCharsAux at hc
      by_cases h10 : n < 10
      · rw [if_pos h10] at hc
        simp only [List.mem_singleton] at hc
        subst hc
        exact digitChar_mem h10
      · rw [if_neg h10] at hc
        rcases List.mem_append.mp hc with hc1 | hc2
        · exact ih (n / 10) (by omega) c hc1
        · simp only [List.mem_singleton] at hc2
          subst hc2
          exact digitChar_mem (Nat.mod_lt _ (by omega))

theorem natToCharsAux_foldl : ∀ (fuel n acc : Nat), n < fuel →
    (natToCharsAux fuel n).foldl (fun a c => a * 10 + digitVal c) acc
      = acc * 10 ^ (natToCharsAux fuel n).length + n := by
  intro fuel
  induction fuel with
  | zero => intro n acc h; omega
  | succ f ih =>
      intro n acc h
      unfold natToCharsAux
      by_cases h10 : n < 10
      · rw [if_pos h10]
        simp [List.foldl, digitVal_digitChar h10]
      · rw [if_neg h10]
        rw [List.foldl_append]
        rw [ih (n / 10) acc (by omega)]
        simp only [List.foldl, List.length_append, List.length_cons, List.length_nil]
        rw [digitVal_digitChar (Nat.mod_lt _ (by omega))]
        have hmod : n / 10 * 10 + n % 10 = n := by omega
        have expand : (acc * 10 ^ (natToCharsAux f (n / 10)).length + n / 10) * 10 + n % 10
            = acc * (10 ^ (natToCharsAux f (n / 10)).length * 10) + (n / 10 * 10 + n % 10) := by
          ring
        rw [expand, hmod, pow_succ]

theorem natToCharsAux_cons : ∀ (fuel n : Nat), n < fuel →
    ∃ c cs, natToCharsAux fuel n = c :: cs ∧ c ∈ digitsList ∧ (0 < n → c ≠ '0') := by
  intro fuel
  induction fuel with
  | zero => intro n h; omega
  | succ f ih =>
      intro n h
      unfold natToCharsAux
      by_cases h10 : n < 10
      · rw [if_pos h10]
        exact ⟨digitChar n, [], rfl, digitChar_mem h10, fun h0 => digitChar_ne_zero h10 h0⟩
      · rw [if_neg h10]
        obtain ⟨c, cs, hc, hmem, hz⟩ := ih (n / 10) (by omega)
        exact ⟨c, cs ++ [digitChar (n % 10)], by rw [hc]; rfl, hmem,
          fun _ => hz (by omega)⟩



theorem parseDigitsAux_append (ds : List Char) : ∀ (acc : Nat) (rest : List Char),
    (∀ c ∈ ds, c ∈ digitsList) →
    (∀ c cs, rest = c :: cs → c.isDigit = false) →
    parseDigitsAux acc (ds ++ rest) = (ds.foldl (fun a c => a * 10 + digitVal c) acc, rest) := by
  induction ds with
  | nil =>
      intro acc rest _ hb
      cases rest with
      | nil => rfl
      | cons c cs =>
          rw [List.nil_append]
          unfold parseDigitsAux
          rw [hb c cs rfl]
          simp
  | cons d ds ih =>
      intro acc rest hd hb
      have hdig : d.isDigit = true := digitsList_isDigit d (hd d (by simp))
      rw [List.cons_append]
      unfold parseDigitsAux
      rw [if_pos hdig]
      exact ih (acc * 10 + digitVal d) rest (fun c hc => hd c (by simp [hc])) hb

theorem parseIntPart_natToChars (m : Nat) (rest : List Char)
    (hb : ∀ c cs, rest = c :: cs → c.isDigit = false) :
    parseIntPart (natToChars m ++ rest) = some (m, rest) := by
  by_cases h0 : m = 0
  · subst h0
    cases rest with
    | nil => rfl
    | cons c cs => rfl
  · obtain ⟨c, cs, hc, hmem, hz⟩ := natToCharsAux_cons (m + 1) m (by omega)
    have hdig : c.isDigit = true := digitsList_isDigit c hmem
    have hcz : c ≠ '0' := hz (by omega)
    unfold natToChars
    rw [hc, List.cons_append]
    unfold parseIntPart
    dsimp only
    rw [if_neg hcz, if_pos hdig]
    have hall : ∀ x ∈ cs, x ∈ digitsList := by
      intro x hx
      exact natToCharsAux_mem (m + 1) m (by omega) x (by rw [hc]; simp [hx])
    rw [parseDigitsAux_append cs (digitVal c) rest hall hb]
    have hfold := natToCharsAux_foldl (m + 1) m 0 (by omega)
    rw [hc] at hfold
    simp only [List.foldl, Nat.zero_mul, Nat.zero_add] at hfold
    rw [hfold]




theorem parseFracOpt_boundary (rest : List Char) (hb : numBoundary rest) :
    parseFracOpt rest = some (false, rest) := by
  cases rest with
  | nil => rfl
  | cons c cs =>
      simp only [parseFracOpt]
      rw [if_neg (hb c cs rfl).2.1]

theorem parseExpOpt_boundary (rest : List Char) (hb : numBoundary rest) :
    parseExpOpt rest = some (false, rest) := by
  cases rest with
  | nil => rfl
  | cons c cs =>
      simp only [parseExpOpt]
      obtain ⟨_, _, he, hE⟩ := hb c cs rfl
      simp [he, hE]

theorem parseNumber_natToChars (m : Nat) (rest : List Char) (hb : numBoundary rest) :
    parseNumber (natToChars m ++ rest) = some (.num (m : Int) true, rest) := by
  have hbd : ∀ c cs, rest = c :: cs → c.isDigit = false := fun c cs h => (hb c cs h).1
  obtain ⟨c, cs, hc, hmem, hz⟩ := natToCharsAux_cons (m + 1) m (by omega)
  have hc2 : natToChars m = c :: cs := hc
  have hcd : c ≠ '-' := by
    intro h
    subst h
    exact absurd hmem (by decide)
  unfold parseNumber
  rw [hc2, List.cons_append]
  dsimp only
  rw [if_neg hcd]
  rw [← List.cons_append, ← hc2]
  simp only [parseIntPart_natToChars m rest hbd, parseFracOpt_boundary rest hb,
    parseExpOpt_boundary rest hb]
  simp



theorem parseNumber_renderInt (n : Int) (rest : List Char) (hb : numBoundary rest) :
    parseNumber (renderInt n ++ rest) = some (.num n true, rest) := by
  unfold renderInt
  by_cases hneg : n < 0
  · rw [if_pos hneg, List.cons_append]
    unfold parseNumber
    dsimp only
    rw [if_pos rfl]
    obtain ⟨c, cs, hc, hmem, hz⟩ := natToCharsAux_cons (n.natAbs + 1) n.natAbs (by omega)
    have hc2 : natToChars n.natAbs = c :: cs := hc
    have hbd : ∀ c cs, rest = c :: cs → c.isDigit = false := fun c cs h => (hb c cs h).1
    simp only [parseIntPart_natToChars n.natAbs rest hbd, parseFracOpt_boundary rest hb,
      parseExpOpt_boundary rest hb]
    have habs : -((n.natAbs : Int)) = n := by omega
    rw [if_pos trivial, habs]
    rfl
  · rw [if_neg hneg]
    have h1 := parseNumber_natToChars n.toNat rest hb
    have h2 : ((n.toNat : Int)) = n := by omega
    rw [h1, h2]

theorem renderInt_cons (n : Int) :
    ∃ c cs, renderInt n = c :: cs ∧ c ∈ '-' :: digitsList := by
  unfold renderInt
  by_cases hneg : n < 0
  · rw [if_pos hneg]
    exact ⟨'-', natToChars n.natAbs, rfl, by simp⟩
  · rw [if_neg hneg]
    obtain ⟨c, cs, hc, hmem, _⟩ := natToCharsAux_cons (n.toNat + 1) n.toNat (by omega)
    exact ⟨c, cs, hc, by simp [hmem]⟩

theorem renderInt_mem (n : Int) : ∀ c ∈ renderInt n, c ∈ '-' :: digitsList := by
  unfold renderInt
  by_cases hneg : n < 0
  · rw [if_pos hneg]
    intro c hc
    rcases List.mem_cons.mp hc with rfl | hc2
    · simp
    · simp [natToCharsAux_mem (n.natAbs + 1) n.natAbs (by omega) c hc2]
  · rw [if_neg hneg]
    intro c hc
    simp [natToCharsAux_mem (n.toNat + 1) n.toNat (by omega) c hc]



theorem parseStringBody_key (c : Char) (rest : List Char)
    (h1 : c ≠ '"') (h2 : c ≠ '\\') (h3 : 32 ≤ c.toNat)
    (h4 : highSurrogate c.toNat = false) (h5 : lowSurrogate c.toNat = false)
    (h6 : Char.ofNat c.toNat = c) :
    parseStringBody (c :: '"' :: rest) = some ([c], rest) := by
  have hq : parseStringUnits ('"' :: rest) = some ([], rest) := by
    unfold parseStringUnits
    rw [if_pos rfl]
  have hu : parseStringUnits (c :: '"' :: rest) = some ([c.toNat], rest) := by
    unfold parseStringUnits
    rw [if_neg h1, if_neg h2, if_neg (by omega), hq]
    rfl
  unfold parseStringBody
  rw [hu]
  simp [combineUnits, h4, h5, h6]

theorem skipWs_cons_of_not (c : Char) (t : List Char) (h : isWs c = false) :
    skipWs (c :: t) = c :: t := by
  unfold skipWs
  rw [List.dropWhile_cons, if_neg (by simp [h])]

theorem parseCore_num_head (f : Nat) (c : Char) (t : List Char)
    (hmem : c ∈ '-' :: digitsList) :
    parseCore (f + 1) 0 (c :: t) = parseNumber (c :: t) := by
  have hws : isWs c = false := by fin_cases hmem <;> decide
  have h1 : c ≠ lbraceC := by fin_cases hmem <;> decide
  have h2 : c ≠ '[' := by fin_cases hmem <;> decide
  have h3 : c ≠ '"' := by fin_cases hmem <;> decide
  have h4 : c ≠ 'n' := by fin_cases hmem <;> decide
  have h5 : c ≠ 't' := by fin_cases hmem <;> decide
  have h6 : c ≠ 'f' := by fin_cases hmem <;> decide
  have h7 : (decide (c = '-') || c.isDigit) = true := by fin_cases hmem <;> decide
  rw [parseCore.eq_2, if_neg (by decide), if_neg (by decide), skipWs_cons_of_not c t hws]
  dsimp only
  rw [if_neg h1, if_neg h2, if_neg h3, if_neg h4, if_neg h5, if_neg h6, if_pos h7]

theorem parseCore_renderInt (f : Nat) (n : Int) (rest : List Char) (hb : numBoundary rest) :
    parseCore (f + 1) 0 (renderInt n ++ rest) = some (.num n true, rest) := by
  obtain ⟨c, cs, hrc, hcmem⟩ := renderInt_cons n
  rw [hrc, List.cons_append, parseCore_num_head f c (cs ++ rest) hcmem,
    ← List.cons_append, ← hrc]
  exact parseNumber_renderInt n rest hb

theorem numBoundary_rbrace : numBoundary [rbraceC] := by
  intro c cs h
  injection h with h1 _
  subst h1
  refine ⟨by decide, by decide, by decide, by decide⟩

theorem numBoundary_comma (more : List Char) : numBoundary (',' :: more) := by
  intro c cs h
  injection h with h1 _
  subst h1
  refine ⟨by decide, by decide, by decide, by decide⟩

theorem parseCore_member_last (f : Nat) (k : Char) (n : Int)
    (hk : k ∈ ['t', 'o', 'u', 'v']) :
    parseCore (f + 2) 1 ('"' :: k :: '"' :: ':' :: (renderInt n ++ [rbraceC]))
      = some (.obj [([k], .num n true)], []) := by
  have hk1 : k ≠ '"' := by fin_cases hk <;> decide
  have hk2 : k ≠ '\\' := by fin_cases hk <;> decide
  have hk3 : 32 ≤ k.toNat := by fin_cases hk <;> decide
  have hk4 : highSurrogate k.toNat = false := by fin_cases hk <;> decide
  have hk5 : lowSurrogate k.toNat = false := by fin_cases hk <;> decide
  have hk6 : Char.ofNat k.toNat = k := by fin_cases hk <;> decide
  rw [parseCore.eq_2, if_pos rfl, skipWs_cons_of_not '"' _ (by decide)]
  dsimp only
  rw [if_pos rfl, parseStringBody_key k _ hk1 hk2 hk3 hk4 hk5 hk6]
  dsimp only
  rw [skipWs_cons_of_not ':' _ (by decide)]
  dsimp only
  rw [if_pos rfl, parseCore_renderInt f n [rbraceC] numBoundary_rbrace]
  dsimp only
  rw [skipWs_cons_of_not rbraceC _ (by decide)]
  dsimp only
  rw [if_neg (by decide), if_pos rfl]

theorem parseCore_member_chain (f : Nat) (k : Char) (n : Int) (more : List Char)
    (hk : k ∈ ['t', 'o', 'u', 'v']) :
    parseCore (f + 2) 1 ('"' :: k :: '"' :: ':' :: (renderInt n ++ (',' :: more)))
      = match parseCore (f + 1) 1 more with
        | some (Json.obj ms, rest5) => some (.obj (([k], .num n true) :: ms), rest5)
        | _ => none := by
  have hk1 : k ≠ '"' := by fin_cases hk <;> decide
  have hk2 : k ≠ '\\' := by fin_cases hk <;> decide
  have hk3 : 32 ≤ k.toNat := by fin_cases hk <;> decide
  have hk4 : highSurrogate k.toNat = false := by fin_cases hk <;> decide
  have hk5 : lowSurrogate k.toNat = false := by fin_cases hk <;> decide
  have hk6 : Char.ofNat k.toNat = k := by fin_cases hk <;> decide
  rw [parseCore.eq_2, if_pos rfl, skipWs_cons_of_not '"' _ (by decide)]
  dsimp only
  rw [if_pos rfl, parseStringBody_key k _ hk1 hk2 hk3 hk4 hk5 hk6]
  dsimp only
  rw [skipWs_cons_of_not ':' _ (by decide)]
  dsimp only
  rw [if_pos rfl, parseCore_renderInt f n (',' :: more) (numBoundary_comma more)]
  dsimp only
  rw [skipWs_cons_of_not ',' _ (by decide)]
  dsimp only
  rw [if_pos rfl]

theorem parseCore_syncPayload (f : Nat) (t : SyncToken) :
    parseCore (f + 4) 0 (syncPayload t)
      = some (.obj [(['t'], .num t.timestamp.unix true),
          (['v'], .num t.validUntil.unix true)], []) := by
  have hshape : syncPayload t = lbraceC :: '"' :: 't' :: '"' :: ':' ::
      (renderInt t.timestamp.unix ++ (',' :: '"' :: 'v' :: '"' :: ':' ::
        (renderInt t.validUntil.unix ++ [rbraceC]))) := by
    simp [syncPayload, quoteKey]
  rw [hshape, parseCore.eq_2, if_neg (by decide), if_neg (by decide),
    skipWs_cons_of_not lbraceC _ (by decide)]
  dsimp only
  rw [if_pos rfl, skipWs_cons_of_not '"' _ (by decide)]
  dsimp only
  rw [if_neg (by decide)]
  rw [show f + 3 = f + 1 + 2 from by omega]
  rw [parseCore_member_chain (f + 1) 't' t.timestamp.unix
    ('"' :: 'v' :: '"' :: ':' :: (renderInt t.validUntil.unix ++ [rbraceC])) (by decide)]
  rw [parseCore_member_last f 'v' t.validUntil.unix (by decide)]

theorem parseCore_nextPagePayload_noU (f : Nat) (t : NextPageToken)
    (hz : t.updatedAfter.isZero = true) :
    parseCore (f + 5) 0 (nextPagePayload t)
      = some (.obj [(['o'], .num t.offset true), (['t'], .num t.timestamp.unix true),
          (['v'], .num t.validUntil.unix true)], []) := by
  have hshape : nextPagePayload t = lbraceC :: '"' :: 'o' :: '"' :: ':' ::
      (renderInt t.offset ++ (',' :: '"' :: 't' :: '"' :: ':' ::
        (renderInt t.timestamp.unix ++ (',' :: '"' :: 'v' :: '"' :: ':' ::
          (renderInt t.validUntil.unix ++ [rbraceC]))))) := by
    simp [nextPagePayload, quoteKey, hz]
  rw [hshape, parseCore.eq_2, if_neg (by decide), if_neg (by decide),
    skipWs_cons_of_not lbraceC _ (by decide)]
  dsimp only
  rw [if_pos rfl, skipWs_cons_of_not '"' _ (by decide)]
  dsimp only
  rw [if_neg (by decide)]
  rw [show f + 4 = f + 2 + 2 from by omega]
  rw [parseCore_member_chain (f + 2) 'o' t.offset _ (by decide)]
  rw [show f + 2 + 1 = f + 1 + 2 from by omega]
  rw [parseCore_member_chain (f + 1) 't' t.timestamp.unix _ (by decide)]
  rw [parseCore_member_last f 'v' t.validUntil.unix (by decide)]

theorem parseCore_nextPagePayload_withU (f : Nat) (t : NextPageToken)
    (hz : t.updatedAfter.isZero = false) :
    parseCore (f + 6) 0 (nextPagePayload t)
      = some (.obj [(['o'], .num t.offset true), (['t'], .num t.timestamp.unix true),
          (['u'], .num t.updatedAfter.unix true),
          (['v'], .num t.validUntil.unix true)], []) := by
  have hshape : nextPagePayload t = lbraceC :: '"' :: 'o' :: '"' :: ':' ::
      (renderInt t.offset ++ (',' :: '"' :: 't' :: '"' :: ':' ::
        (renderInt t.timestamp.unix ++ (',' :: '"' :: 'u' :: '"' :: ':' ::
          (renderInt t.updatedAfter.unix ++ (',' :: '"' :: 'v' :: '"' :: ':' ::
            (renderInt t.validUntil.unix ++ [rbraceC]))))))) := by
    simp [nextPagePayload, quoteKey, hz]
  rw [hshape, parseCore.eq_2, if_neg (by decide), if_neg (by decide),
    skipWs_cons_of_not lbraceC _ (by decide)]
  dsimp only
  rw [if_pos rfl, skipWs_cons_of_not '"' _ (by decide)]
  dsimp only
  rw [if_neg (by decide)]
  rw [show f + 5 = f + 3 + 2 from by omega]
  rw [parseCore_member_chain (f + 3) 'o' t.offset _ (by decide)]
  rw [show f + 3 + 1 = f + 2 + 2 from by omega]
  rw [parseCore_member_chain (f + 2) 't' t.timestamp.unix _ (by decide)]
  rw [show f + 2 + 1 = f + 1 + 2 from by omega]
  rw [parseCore_member_chain (f + 1) 'u' t.updatedAfter.unix _ (by decide)]
  rw [parseCore_member_last f 'v' t.validUntil.unix (by decide)]

theorem jsonParse_syncPayload (t : SyncToken) :
    jsonParse (syncPayload t) = some (.obj [(['t'], .num t.timestamp.unix true),
        (['v'], .num t.validUntil.unix true)]) := by
  unfold jsonParse
  have hlen : 11 ≤ (syncPayload t).length := by
    simp [syncPayload, quoteKey]
    omega
  obtain ⟨g, hg⟩ : ∃ g, (syncPayload t).length + 1 = g + 4 :=
    ⟨(syncPayload t).length - 3, by omega⟩
  rw [hg, parseCore_syncPayload g t]
  rfl

theorem jsonParse_nextPagePayload_noU (t : NextPageToken)
    (hz : t.updatedAfter.isZero = true) :
    jsonParse (nextPagePayload t) = some (.obj [(['o'], .num t.offset true),
        (['t'], .num t.timestamp.unix true), (['v'], .num t.validUntil.unix true)]) := by
  unfold jsonParse
  have hlen : 16 ≤ (nextPagePayload t).length := by
    simp [nextPagePayload, quoteKey, hz]
    omega
  obtain ⟨g, hg⟩ : ∃ g, (nextPagePayload t).length + 1 = g + 5 :=
    ⟨(nextPagePayload t).length - 4, by omega⟩
  rw [hg, parseCore_nextPagePayload_noU g t hz]
  rfl

theorem jsonParse_nextPagePayload_withU (t : NextPageToken)
    (hz : t.updatedAfter.isZero = false) :
    jsonParse (nextPagePayload t) = some (.obj [(['o'], .num t.offset true),
        (['t'], .num t.timestamp.unix true), (['u'], .num t.updatedAfter.unix true),
        (['v'], .num t.validUntil.unix true)]) := by
  unfold jsonParse
  have hlen : 21 ≤ (nextPagePayload t).length := by
    simp [nextPagePayload, quoteKey, hz]
    omega
  obtain ⟨g, hg⟩ : ∃ g, (nextPagePayload t).length + 1 = g + 6 :=
    ⟨(nextPagePayload t).length - 5, by omega⟩
  rw [hg, parseCore_nextPagePayload_withU g t hz]
  rfl

theorem renderInt_payloadChars (n : Int) : ∀ c ∈ renderInt n, c ∈ payloadChars := by
  intro c hc
  have hm := renderInt_mem n c hc
  rcases List.mem_cons.mp hm with rfl | h
  · decide
  · simp [payloadChars, h]

theorem syncPayload_shape (t : SyncToken) :
    syncPayload t = lbraceC :: '"' :: 't' :: '"' :: ':' ::
      (renderInt t.timestamp.unix ++ (',' :: '"' :: 'v' :: '"' :: ':' ::
        (renderInt t.validUntil.unix ++ [rbraceC]))) := by
  simp [syncPayload, quoteKey]

theorem nextPagePayload_shape_noU (t : NextPageToken) (hz : t.updatedAfter.isZero = true) :
    nextPagePayload t = lbraceC :: '"' :: 'o' :: '"' :: ':' ::
      (renderInt t.offset ++ (',' :: '"' :: 't' :: '"' :: ':' ::
        (renderInt t.timestamp.unix ++ (',' :: '"' :: 'v' :: '"' :: ':' ::
          (renderInt t.validUntil.unix ++ [rbraceC]))))) := by
  simp [nextPagePayload, quoteKey, hz]

theorem nextPagePayload_shape_withU (t : NextPageToken) (hz : t.updatedAfter.isZero = false) :
    nextPagePayload t = lbraceC :: '"' :: 'o' :: '"' :: ':' ::
      (renderInt t.offset ++ (',' :: '"' :: 't' :: '"' :: ':' ::
        (renderInt t.timestamp.unix ++ (',' :: '"' :: 'u' :: '"' :: ':' ::
          (renderInt t.updatedAfter.unix ++ (',' :: '"' :: 'v' :: '"' :: ':' ::
            (renderInt t.validUntil.unix ++ [rbraceC]))))))) := by
  simp [nextPagePayload, quoteKey, hz]

theorem syncPayload_chars (t : SyncToken) : ∀ c ∈ syncPayload t, c ∈ payloadChars := by
  intro c hc
  rw [syncPayload_shape t] at hc
  simp only [List.mem_cons, List.mem_append, List.mem_singleton] at hc
  rcases hc with rfl | rfl | rfl | rfl | rfl | h | rfl | rfl | rfl | rfl | rfl | h | rfl | h <;>
    first
    | decide
    | exact renderInt_payloadChars _ c h
    | cases h

theorem nextPagePayload_chars (t : NextPageToken) :
    ∀ c ∈ nextPagePayload t, c ∈ payloadChars := by
  intro c hc
  by_cases hz : t.updatedAfter.isZero = true
  · rw [nextPagePayload_shape_noU t hz] at hc
    simp only [List.mem_cons, List.mem_append, List.mem_singleton] at hc
    rcases hc with rfl | rfl | rfl | rfl | rfl | h | rfl | rfl | rfl | rfl | rfl | h |
        rfl | rfl | rfl | rfl | rfl | h | rfl | h <;>
      first
      | decide
      | exact renderInt_payloadChars _ c h
      | cases h
  · rw [nextPagePayload_shape_withU t (by simpa using hz)] at hc
    simp only [List.mem_cons, List.mem_append, List.mem_singleton] at hc
    rcases hc with rfl | rfl | rfl | rfl | rfl | h | rfl | rfl | rfl | rfl | rfl | h |
        rfl | rfl | rfl | rfl | rfl | h | rfl | rfl | rfl | rfl | rfl | h | rfl | h <;>
      first
      | decide
      | exact renderInt_payloadChars _ c h
      | cases h

theorem payloadChars_lt256 : ∀ c ∈ payloadChars, c.toNat < 256 := by decide

theorem payloadChars_ofNat : ∀ c ∈ payloadChars, Char.ofNat c.toNat = c := by decide

theorem charsToBytes_lt256 (l : List Char) (h : ∀ c ∈ l, c ∈ payloadChars) :
    ∀ x ∈ charsToBytes l, x < 256 := by
  intro x hx
  unfold charsToBytes at hx
  obtain ⟨c, hc, rfl⟩ := List.mem_map.mp hx
  exact payloadChars_lt256 c (h c hc)

theorem bytesToChars_charsToBytes (l : List Char) (h : ∀ c ∈ l, c ∈ payloadChars) :
    bytesToChars (charsToBytes l) = l := by
  induction l with
  | nil => rfl
  | cons a l ih =>
      have ha := payloadChars_ofNat a (h a (by simp))
      have ihh := ih (fun c hc => h c (by simp [hc]))
      simp only [bytesToChars, charsToBytes, List.map_cons] at ihh ⊢
      rw [ha, ihh]

theorem zero_of_isZero {g : GoTime} (hz : g.isZero = true) : g = GoTime.zero := by
  rcases hg : g with ⟨s, ns⟩
  rw [hg] at hz
  simp only [GoTime.isZero, Bool.and_eq_true, beq_iff_eq] at hz
  simp [GoTime.zero, hz.1, hz.2]

theorem unmarshal_marshal_sync (t : SyncToken)
    (h1 : inInt64Range t.timestamp.unix = true)
    (h2 : inInt64Range t.validUntil.unix = true) :
    unmarshalSyncToken (marshalSyncToken t)
      = .ok ⟨t.timestamp.truncSec, t.validUntil.truncSec⟩ := by
  unfold marshalSyncToken unmarshalSyncToken
  rw [b64decode_b64encode _ (charsToBytes_lt256 _ (syncPayload_chars t))]
  dsimp only
  rw [bytesToChars_charsToBytes _ (syncPayload_chars t), jsonParse_syncPayload t]
  dsimp only
  have h1s : inInt64Range t.timestamp.sec = true := h1
  have h2s : inInt64Range t.validUntil.sec = true := h2
  simp [jLookup, getIntField, h1s, h2s, timeUnix, GoTime.truncSec, GoTime.unix]

theorem unmarshal_marshal_next (t : NextPageToken)
    (h1 : inInt64Range t.timestamp.unix = true)
    (h2 : inInt64Range t.updatedAfter.unix = true)
    (h3 : inInt64Range t.offset = true)
    (h4 : inInt64Range t.validUntil.unix = true) :
    unmarshalNextPageToken (marshalNextPageToken t)
      = .ok ⟨t.timestamp.truncSec, t.updatedAfter.truncSec, t.offset,
          t.validUntil.truncSec⟩ := by
  unfold marshalNextPageToken unmarshalNextPageToken
  rw [b64decode_b64encode _ (charsToBytes_lt256 _ (nextPagePayload_chars t))]
  dsimp only
  rw [bytesToChars_charsToBytes _ (nextPagePayload_chars t)]
  have h1s : inInt64Range t.timestamp.sec = true := h1
  have h2s : inInt64Range t.updatedAfter.sec = true := h2
  have h4s : inInt64Range t.validUntil.sec = true := h4
  by_cases hz : t.updatedAfter.isZero = true
  · rw [jsonParse_nextPagePayload_noU t hz]
    dsimp only
    have hEq : t.updatedAfter = GoTime.zero := zero_of_isZero hz
    simp [jLookup, getIntField, h1s, h3, h4s, timeUnix, GoTime.truncSec, GoTime.unix,
      hEq, GoTime.zero]
  · rw [jsonParse_nextPagePayload_withU t (by simpa using hz)]
    dsimp only
    simp [jLookup, getIntField, h1s, h2s, h3, h4s, timeUnix, GoTime.truncSec, GoTime.unix]

theorem truncSec_eq_self_iff {g : GoTime} : g.truncSec = g ↔ g.nsec = 0 := by
  obtain ⟨s, ns⟩ := g
  simp [GoTime.truncSec, eq_comm]

theorem WF_inInt64Range {g : GoTime} (h : g.WF) : inInt64Range g.unix = true := by
  simp only [inInt64Range, GoTime.unix, Bool.and_eq_true, decide_eq_true_eq]
  exact ⟨h.2.2.1, h.2.2.2⟩

theorem b64char_safe : ∀ i : Fin 62, queryValueSafe (b64char i.val) = true := by decide

theorem b64encode_safe (bs : List Nat) (h : ∀ x ∈ bs, x < 128 ∧ x % 64 ≤ 61) :
    ∀ ch ∈ b64encode bs, queryValueSafe ch = true := by
  induction bs using b64encode.induct with
  | case1 => simp [b64encode]
  | case2 a =>
      obtain ⟨ha, _⟩ := h a (by simp)
      intro ch hch
      simp only [b64encode, List.mem_cons, List.mem_singleton, List.not_mem_nil, or_false] at hch
      rcases hch with rfl | rfl | rfl | rfl
      · exact b64char_safe ⟨a / 4, by omega⟩
      · exact b64char_safe ⟨a % 4 * 16, by omega⟩
      · decide
      · decide
  | case3 a b =>
      obtain ⟨ha, _⟩ := h a (by simp)
      obtain ⟨hb, _⟩ := h b (by simp)
      intro ch hch
      simp only [b64encode, List.mem_cons, List.mem_singleton, List.not_mem_nil, or_false] at hch
      rcases hch with rfl | rfl | rfl | rfl
      · exact b64char_safe ⟨a / 4, by omega⟩
      · exact b64char_safe ⟨a % 4 * 16 + b / 16, by omega⟩
      · exact b64char_safe ⟨b % 16 * 4, by omega⟩
      · decide
  | case4 a b c rest ih =>
      obtain ⟨ha, _⟩ := h a (by simp)
      obtain ⟨hb, _⟩ := h b (by simp)
      obtain ⟨hc, hc64⟩ := h c (by simp)
      have hrest : ∀ x ∈ rest, x < 128 ∧ x % 64 ≤ 61 := fun x hx => h x (by simp [hx])
      intro ch hch
      simp only [b64encode, List.mem_cons] at hch
      rcases hch with rfl | rfl | rfl | rfl | hch
      · exact b64char_safe ⟨a / 4, by omega⟩
      · exact b64char_safe ⟨a % 4 * 16 + b / 16, by omega⟩
      · exact b64char_safe ⟨b % 16 * 4 + c / 64, by omega⟩
      · exact b64char_safe ⟨c % 64, by omega⟩
      · exact ih hrest ch hch

theorem payloadChars_byte_bounds : ∀ c ∈ payloadChars, c.toNat < 128 ∧ c.toNat % 64 ≤ 61 := by
  decide

/-! ### Claim C8 -/

/-- C8: for every cursor state of either variant, every character of the
encoded token text is safe to place unescaped in a URL query parameter value
(the encodings only ever use ASCII alphanumerics and the padding `=`). -/
theorem c8_token_query_safe :
    (∀ t : SyncToken, ∀ ch ∈ marshalSyncToken t, queryValueSafe ch = true) ∧
    (∀ t : NextPageToken, ∀ ch ∈ marshalNextPageToken t, queryValueSafe ch = true) := by
  constructor
  · intro t ch hch
    refine b64encode_safe _ (fun x hx => ?_) ch hch
    obtain ⟨c, hc, rfl⟩ := List.mem_map.mp hx
    exact payloadChars_byte_bounds c (syncPayload_chars t c hc)
  · intro t ch hch
    refine b64encode_safe _ (fun x hx => ?_) ch hch
    obtain ⟨c, hc, rfl⟩ := List.mem_map.mp hx
    exact payloadChars_byte_bounds c (nextPagePayload_chars t c hc)

theorem c8_token_query_safe_witness : queryValueSafe 'e' = true :=
  c8_token_query_safe.1 ⟨timeUnix 0, timeUnix 0⟩ 'e' (by decide)

/-! ### Claim C10 -/

/-- C10: decoding the encoding of a cursor state preserves the offset exactly
and maps every timestamp field — including an omitted-as-zero updated_after —
to the original instant truncated to whole seconds; the round trip is the
identity precisely when no timestamp carries a sub-second component. -/
theorem c10_roundtrip_truncation :
    (∀ t : SyncToken, t.timestamp.WF → t.validUntil.WF →
        unmarshalSyncToken (marshalSyncToken t)
          = .ok ⟨t.timestamp.truncSec, t.validUntil.truncSec⟩) ∧
    (∀ t : NextPageToken, t.timestamp.WF → t.updatedAfter.WF → t.validUntil.WF →
        inInt64Range t.offset = true →
        unmarshalNextPageToken (marshalNextPageToken t)
          = .ok ⟨t.timestamp.truncSec, t.updatedAfter.truncSec, t.offset,
              t.validUntil.truncSec⟩) ∧
    (∀ t : SyncToken, t.timestamp.WF → t.validUntil.WF →
        (unmarshalSyncToken (marshalSyncToken t) = .ok t
          ↔ (t.timestamp.nsec = 0 ∧ t.validUntil.nsec = 0))) ∧
    (∀ t : NextPageToken, t.timestamp.WF → t.updatedAfter.WF → t.validUntil.WF →
        inInt64Range t.offset = true →
        (unmarshalNextPageToken (marshalNextPageToken t) = .ok t
          ↔ (t.timestamp.nsec = 0 ∧ t.updatedAfter.nsec = 0 ∧ t.validUntil.nsec = 0))) := by
  have hs : ∀ t : SyncToken, t.timestamp.WF → t.validUntil.WF →
      unmarshalSyncToken (marshalSyncToken t)
        = .ok ⟨t.timestamp.truncSec, t.validUntil.truncSec⟩ :=
    fun t h1 h2 => unmarshal_marshal_sync t (WF_inInt64Range h1) (WF_inInt64Range h2)
  have hn : ∀ t : NextPageToken, t.timestamp.WF → t.updatedAfter.WF → t.validUntil.WF →
      inInt64Range t.offset = true →
      unmarshalNextPageToken (marshalNextPageToken t)
        = .ok ⟨t.timestamp.truncSec, t.updatedAfter.truncSec, t.offset,
            t.validUntil.truncSec⟩ :=
    fun t h1 h2 h3 ho =>
      unmarshal_marshal_next t (WF_inInt64Range h1) (WF_inInt64Range h2) ho (WF_inInt64Range h3)
  refine ⟨hs, hn, fun t h1 h2 => ?_, fun t h1 h2 h3 ho => ?_⟩
  · rw [hs t h1 h2, Except.ok.injEq]
    constructor
    · intro he
      exact ⟨truncSec_eq_self_iff.mp (congrArg SyncToken.timestamp he),
        truncSec_eq_self_iff.mp (congrArg SyncToken.validUntil he)⟩
    · rintro ⟨hn1, hn2⟩
      rw [truncSec_eq_self_iff.mpr hn1, truncSec_eq_self_iff.mpr hn2]
  · rw [hn t h1 h2 h3 ho, Except.ok.injEq]
    constructor
    · intro he
      exact ⟨truncSec_eq_self_iff.mp (congrArg NextPageToken.timestamp he),
        truncSec_eq_self_iff.mp (congrArg NextPageToken.updatedAfter he),
        truncSec_eq_self_iff.mp (congrArg NextPageToken.validUntil he)⟩
    · rintro ⟨hn1, hn2, hn3⟩
      rw [truncSec_eq_self_iff.mpr hn1, truncSec_eq_self_iff.mpr hn2,
        truncSec_eq_self_iff.mpr hn3]

theorem c10_roundtrip_truncation_witness :
    unmarshalSyncToken (marshalSyncToken ⟨⟨5, 123⟩, ⟨9, 1⟩⟩)
      = .ok ⟨(⟨5, 123⟩ : GoTime).truncSec, (⟨9, 1⟩ : GoTime).truncSec⟩ :=
  c10_roundtrip_truncation.1 ⟨⟨5, 123⟩, ⟨9, 1⟩⟩ (by decide) (by decide)

/-! ### Claim C3 -/

/-- C3 (counterexample): a sync-variant state whose timestamp carries half a
second decodes from its encoding to a different state — the sub-second
component is lost — so the round trip fails without a precision
restriction. -/
theorem c3_counterexample :
    unmarshalSyncToken (marshalSyncToken ⟨⟨0, 500000000⟩, ⟨86400, 0⟩⟩)
      = .ok ⟨⟨0, 0⟩, ⟨86400, 0⟩⟩ ∧
    (⟨⟨0, 500000000⟩, ⟨86400, 0⟩⟩ : SyncToken) ≠ ⟨⟨0, 0⟩, ⟨86400, 0⟩⟩ := by
  refine ⟨by decide, by decide⟩

/-- C3 (amended): decode ∘ encode is the identity on every cursor state of
either token variant whose timestamps are whole seconds — including the case
of an absent (zero) updated_after — but not for timestamps with sub-second
precision, which the Unix-seconds serialization truncates. -/
theorem c3_roundtrip_amended :
    (∀ t : SyncToken, t.timestamp.WF → t.validUntil.WF →
        t.timestamp.nsec = 0 → t.validUntil.nsec = 0 →
        unmarshalSyncToken (marshalSyncToken t) = .ok t) ∧
    (∀ t : NextPageToken, t.timestamp.WF → t.updatedAfter.WF → t.validUntil.WF →
        inInt64Range t.offset = true →
        t.timestamp.nsec = 0 → t.updatedAfter.nsec = 0 → t.validUntil.nsec = 0 →
        unmarshalNextPageToken (marshalNextPageToken t) = .ok t) := by
  constructor
  · intro t h1 h2 hn1 hn2
    rw [unmarshal_marshal_sync t (WF_inInt64Range h1) (WF_inInt64Range h2)]
    rw [truncSec_eq_self_iff.mpr hn1, truncSec_eq_self_iff.mpr hn2]
  · intro t h1 h2 h3 ho hn1 hn2 hn3
    rw [unmarshal_marshal_next t (WF_inInt64Range h1) (WF_inInt64Range h2) ho
      (WF_inInt64Range h3)]
    rw [truncSec_eq_self_iff.mpr hn1, truncSec_eq_self_iff.mpr hn2,
      truncSec_eq_self_iff.mpr hn3]

theorem c3_roundtrip_amended_witness :
    unmarshalNextPageToken (marshalNextPageToken ⟨timeUnix 7, GoTime.zero, 42, timeUnix 86400⟩)
      = .ok ⟨timeUnix 7, GoTime.zero, 42, timeUnix 86400⟩ :=
  c3_roundtrip_amended.2 ⟨timeUnix 7, GoTime.zero, 42, timeUnix 86400⟩
    (by decide) (by decide) (by decide) (by decide) (by decide) (by decide) (by decide)

/-! ### Claim C4 -/

/-- C4 (counterexample): the token text "e30=" — the valid text transform of
"\x7b\x7d", an object missing every required field — is accepted by both
decoders, which return zero-valued states instead of a DecodeError. -/
theorem c4_counterexample :
    unmarshalSyncToken "e30=".data = .ok ⟨timeUnix 0, timeUnix 0⟩ ∧
    unmarshalNextPageToken "e30=".data = .ok ⟨timeUnix 0, GoTime.zero, 0, timeUnix 0⟩ := by
  refine ⟨by decide, by decide⟩

/-- C4 (amended): for every input string, decode returns a DecodeError — and
the request is answered with a client error carrying no records — whenever
the binary-to-text transform is invalid, the decoded bytes are not a single
JSON value, the value's top level is neither an object nor null, or a known
field holds anything but an integral in-range number or null; decode never
succeeds partially (success requires the transform and the parse to have
succeeded in full).  A structurally valid object that merely lacks required
fields is, however, accepted with zero-valued fields rather than rejected. -/
theorem c4_decode_errors :
    (∀ s : List Char, b64decode s = none →
        unmarshalSyncToken s = .error .corruptBase64 ∧
        unmarshalNextPageToken s = .error .corruptBase64) ∧
    (∀ (s : List Char) (bs : List Nat), b64decode s = some bs →
        jsonParse (bytesToChars bs) = none →
        unmarshalSyncToken s = .error .badJson ∧
        unmarshalNextPageToken s = .error .badJson) ∧
    (∀ (s : List Char) (bs : List Nat) (j : Json), b64decode s = some bs →
        jsonParse (bytesToChars bs) = some j →
        j ≠ .null → (∀ ms, j ≠ .obj ms) →
        unmarshalSyncToken s = .error .badJson ∧
        unmarshalNextPageToken s = .error .badJson) ∧
    (∀ (s : List Char) (bs : List Nat) (ms : List (List Char × Json)),
        b64decode s = some bs → jsonParse (bytesToChars bs) = some (.obj ms) →
        ((∃ e, getIntField (jLookup ms ['t']) = .error e) ∨
          (∃ e, getIntField (jLookup ms ['v']) = .error e)) →
        unmarshalSyncToken s = .error .badField) ∧
    (∀ (s : List Char) (bs : List Nat) (ms : List (List Char × Json)),
        b64decode s = some bs → jsonParse (bytesToChars bs) = some (.obj ms) →
        ((∃ e, getIntField (jLookup ms ['t']) = .error e) ∨
          (∃ e, getIntField (jLookup ms ['o']) = .error e) ∨
          (∃ e, getIntField (jLookup ms ['u']) = .error e) ∨
          (∃ e, getIntField (jLookup ms ['v']) = .error e)) →
        unmarshalNextPageToken s = .error .badField) ∧
    (∀ (now : GoTime) (fetch : QuerySpec → List User) (sp np mp : String),
        sp ≠ "" → (∃ e, unmarshalSyncToken sp.data = .error e) →
        listHandler now fetch sp np mp = .error ⟨400, "malformed sync token"⟩) ∧
    (∀ (now : GoTime) (fetch : QuerySpec → List User) (np mp : String),
        np ≠ "" → (∃ e, unmarshalNextPageToken np.data = .error e) →
        listHandler now fetch "" np mp = .error ⟨400, "malformed next page token"⟩) ∧
    (∀ (s : List Char) (t2 : SyncToken), unmarshalSyncToken s = .ok t2 →
        ∃ bs j, b64decode s = some bs ∧ jsonParse (bytesToChars bs) = some j) ∧
    (∀ (s : List Char) (t2 : NextPageToken), unmarshalNextPageToken s = .ok t2 →
        ∃ bs j, b64decode s = some bs ∧ jsonParse (bytesToChars bs) = some j) := by
  refine ⟨fun s hb => ?_, fun s bs hb hj => ?_, fun s bs j hb hj hnull hobj => ?_,
    fun s bs ms hb hj herr => ?_, fun s bs ms hb hj herr => ?_,
    fun now fetch sp np mp hne herr => ?_, fun now fetch np mp hne herr => ?_,
    fun s t2 hok => ?_, fun s t2 hok => ?_⟩
  · constructor
    · unfold unmarshalSyncToken
      rw [hb]
    · unfold unmarshalNextPageToken
      rw [hb]
  · constructor
    · unfold unmarshalSyncToken
      rw [hb]
      dsimp only
      rw [hj]
    · unfold unmarshalNextPageToken
      rw [hb]
      dsimp only
      rw [hj]
  · constructor
    · unfold unmarshalSyncToken
      rw [hb]
      dsimp only
      rw [hj]
      cases j with
      | null => exact absurd rfl hnull
      | obj ms => exact absurd rfl (hobj ms)
      | boolean b => rfl
      | num a i => rfl
      | str t => rfl
      | arr es => rfl
    · unfold unmarshalNextPageToken
      rw [hb]
      dsimp only
      rw [hj]
      cases j with
      | null => exact absurd rfl hnull
      | obj ms => exact absurd rfl (hobj ms)
      | boolean b => rfl
      | num a i => rfl
      | str t => rfl
      | arr es => rfl
  · unfold unmarshalSyncToken
    rw [hb]
    dsimp only
    rw [hj]
    dsimp only
    rcases h1c : getIntField (jLookup ms ['t']) with e1 | v1 <;>
      rcases h2c : getIntField (jLookup ms ['v']) with e2 | v2 <;> try rfl
    rcases herr with ⟨e, he⟩ | ⟨e, he⟩
    · rw [h1c] at he
      exact Except.noConfusion he
    · rw [h2c] at he
      exact Except.noConfusion he
  · unfold unmarshalNextPageToken
    rw [hb]
    dsimp only
    rw [hj]
    dsimp only
    rcases h1c : getIntField (jLookup ms ['t']) with e1 | v1 <;>
      rcases h2c : getIntField (jLookup ms ['o']) with e2 | v2 <;>
        rcases h3c : getIntField (jLookup ms ['u']) with e3 | v3 <;>
          rcases h4c : getIntField (jLookup ms ['v']) with e4 | v4 <;> try rfl
    rcases herr with ⟨e, he⟩ | ⟨e, he⟩ | ⟨e, he⟩ | ⟨e, he⟩
    · rw [h1c] at he
      exact Except.noConfusion he
    · rw [h2c] at he
      exact Except.noConfusion he
    · rw [h3c] at he
      exact Except.noConfusion he
    · rw [h4c] at he
      exact Except.noConfusion he
  · obtain ⟨e, he⟩ := herr
    unfold listHandler parseCursor
    rw [if_pos hne, he]
  · obtain ⟨e, he⟩ := herr
    unfold listHandler parseCursor
    rw [if_neg (by simp), if_pos hne, he]
  · unfold unmarshalSyncToken at hok
    rcases hb : b64decode s with _ | bs
    · rw [hb] at hok
      cases hok
    · rw [hb] at hok
      dsimp only at hok
      rcases hj : jsonParse (bytesToChars bs) with _ | j
      · rw [hj] at hok
        cases hok
      · exact ⟨bs, j, rfl, hj⟩
  · unfold unmarshalNextPageToken at hok
    rcases hb : b64decode s with _ | bs
    · rw [hb] at hok
      cases hok
    · rw [hb] at hok
      dsimp only at hok
      rcases hj : jsonParse (bytesToChars bs) with _ | j
      · rw [hj] at hok
        cases hok
      · exact ⟨bs, j, rfl, hj⟩

theorem c4_decode_errors_witness :
    (unmarshalSyncToken "!".data = .error .corruptBase64 ∧
      unmarshalNextPageToken "!".data = .error .corruptBase64) ∧
    unmarshalSyncToken "eyJ0IjoxLjUsInYiOjB9".data = .error .badField ∧
    unmarshalNextPageToken "eyJvIjpbXX0=".data = .error .badField :=
  ⟨c4_decode_errors.1 "!".data (by decide),
    c4_decode_errors.2.2.2.1 "eyJ0IjoxLjUsInYiOjB9".data
      (charsToBytes "\x7b\"t\":1.5,\"v\":0\x7d".data)
      [(['t'], Json.num 1 false), (['v'], Json.num 0 true)]
      (by decide) (by rfl) (Or.inl ⟨DecodeErr.badField, by decide⟩),
    c4_decode_errors.2.2.2.2.1 "eyJvIjpbXX0=".data
      (charsToBytes "\x7b\"o\":[]\x7d".data)
      [(['o'], Json.arr [])]
      (by decide) (by rfl) (Or.inr (Or.inl ⟨DecodeErr.badField, by decide⟩))⟩

end DBIter
